import Mathlib

/-!
Verification of the TOC / heading-numbering core of `mkdocs-with-pdf`
(`mkdocs_with_pdf/toc.py`), shallowly embedded in Lean 4.

The host document abstraction (BeautifulSoup) is modelled by `Node` trees;
the document body is the flat sequence of top-level elements, matching the
spec's description of the input as "a flat, possibly malformed sequence of
heading elements".  Python object references to document elements are
modelled as indices into the body paired with the referenced value; in-place
mutation of the document becomes an explicit index update of the body list.
Logging warnings are modelled as returned lists of message strings; Python
`assert` failures and the `IndexError` reachable in `make_link` are modelled
with `Except TocErr`.
-/

namespace MkdocsToc

/-- An HTML-like document element: a tag with attributes and children, or a
text fragment (bs4 `NavigableString`, whose `name` is `None`). -/
inductive Node where
  | tag (name : String) (attrs : List (String × String)) (children : List Node)
  | text (s : String)

/-- `el.get(key)` of bs4: attribute lookup; text fragments have no attributes. -/
def Node.getAttr (n : Node) (key : String) : Option String :=
  match n with
  | .tag _ attrs _ => (attrs.find? (fun p => p.1 = key)).map Prod.snd
  | .text _ => none

/-- `el.name` of bs4 (`none` for text fragments). -/
def Node.nameOf : Node → Option String
  | .tag nm _ _ => some nm
  | .text _ => none

/-- The children (`el.contents`) of an element. -/
def Node.childrenOf : Node → List Node
  | .tag _ _ cs => cs
  | .text _ => []

/-- Replace the full child list of an element (helper for modelled mutation). -/
def Node.withChildren : Node → List Node → Node
  | .tag nm a _, cs => .tag nm a cs
  | .text s, _ => .text s

/-- `parent.append(child)` of bs4, building a fresh value. -/
def appendChild (n child : Node) : Node :=
  match n with
  | .tag nm a cs => .tag nm a (cs ++ [child])
  | .text s => .text s

/-- Modelled from the spec: the host document abstraction.  The document body
exposes its elements as a flat sequence in document order; headings are
elements named `h1` .. `h6`. -/
structure Soup where
  body : List Node

/-- Modelled from the spec: the configuration keys consumed by this core
(`Options` lives in `mkdocs_with_pdf/options.py`, not part of the given
sources).  `options.logger` is replaced by warning lists in the results. -/
structure Options where
  ignore_top_header : Bool
  toc_level : Int
  ordered_chapter_level : Int
  toc_title : String
  excludes_children : List String

/-- Failure modes of the embedded code: a Python `assert` failure, or the
`IndexError` raised by `el.contents[0]` on an empty list in `make_link`. -/
inductive TocErr where
  | assertFail
  | indexErr
deriving DecidableEq, Repr

/-- `_MAX_HEADER_LEVEL = 6`. -/
def _MAX_HEADER_LEVEL : Nat := 6

/-- `_HeaderTree`: normalized tree of document headers; missed levels have
`element` set to `None`.  A real element is a reference into the document:
its body index together with the referenced heading value. -/
inductive HeaderTree where
  | mk (element : Option (Nat × Node)) (subheaders : List HeaderTree)

/-- The `element` field of a `_HeaderTree`. -/
def HeaderTree.element : HeaderTree → Option (Nat × Node)
  | .mk e _ => e

/-- The `subheaders` field of a `_HeaderTree`. -/
def HeaderTree.subheaders : HeaderTree → List HeaderTree
  | .mk _ s => s

/-- `_is_exclude(url, options)`: `None` and the empty string are falsy in
Python, hence never excluded. -/
def _is_exclude (url : Option String) (options : Options) : Bool :=
  match url with
  | none => false
  | some u =>
      if u = "" then false
      else if options.excludes_children.contains u then true
      else false

/-- The tag name of the heading at (0-based) level `k - 1`, i.e. `"h" ++ k`. -/
def headerName (k : Nat) : String := "h" ++ toString k

/-- The tag-name list `[f'h{i + 1}' for i in range(start_level, stop_level)]`. -/
def windowNames (s e : Nat) : List String :=
  (List.range' (s + 1) (e - s)).map headerName

/-- Whether a node is a heading matched by `soup.find_all` for window `[s, e)`. -/
def isWindowHeading (s e : Nat) (n : Node) : Bool :=
  match n with
  | .tag nm _ _ => (windowNames s e).contains nm
  | .text _ => false

/-- `soup.find_all([...])`: the window headings of the body in document order,
each paired with its body index (the model of a Python object reference). -/
def find_all (soup : Soup) (s e : Nat) : List (Nat × Node) :=
  soup.body.enum.filter (fun p => isWindowHeading s e p.2)

/-- Decimal digit accumulator over a character list (kernel-reducible stand-in
for `String.toNat?`). -/
def natFromCharsAux : List Char → Nat → Option Nat
  | [], acc => some acc
  | c :: cs, acc =>
      if c.isDigit then natFromCharsAux cs (acc * 10 + (c.toNat - '0'.toNat))
      else none

/-- `int(s)` on a decimal string, as an `Option`. -/
def natFromChars (l : List Char) : Option Nat :=
  match l with
  | [] => none
  | _ :: _ => natFromCharsAux l 0

/-- `level = int(h.name[1:]) - 1` (0-based heading level of an element). -/
def lvlOf (n : Node) : Nat :=
  match n.nameOf with
  | some nm => ((natFromChars (nm.data.drop 1)).getD 1) - 1
  | none => 0

/-!
### The collector loop state

`header_levels` in the source is a per-level array of mutable node
references; whenever it is read it holds a contiguous ancestor chain:
`header_levels[start_level + k]`, for `k` below the number of set entries, is
the currently open node at depth `k`, each one the most recently appended
child of the previous.  The zipper below represents exactly that chain
(deepest node first).  An `OpenNode` is an entry of the chain: its heading
element (or `none` for a synthesized placeholder) and the children appended
to it so far that are no longer on the chain.  `exclude_levels` is modelled
as a function from level to flag (the source's list has fixed length
`stop_level` and is only ever indexed below `stop_level`).
-/

/-- One open node of the `header_levels` chain. -/
structure OpenNode where
  element : Option (Nat × Node)
  doneChildren : List HeaderTree

/-- Collector state: completed top-level trees, the open chain (deepest node
first), and the `exclude_levels` flags. -/
structure CState where
  doneTop : List HeaderTree
  rchain : List OpenNode
  excl : Nat → Bool

/-- Close the deepest open node of the chain, folding it into its parent's
children (or into the completed top-level list). -/
def closeOne (st : CState) : CState :=
  match st.rchain with
  | [] => st
  | o :: rest =>
    let t : HeaderTree := .mk o.element o.doneChildren
    match rest with
    | [] => { st with doneTop := st.doneTop ++ [t], rchain := [] }
    | p :: ps => { st with rchain := { p with doneChildren := p.doneChildren ++ [t] } :: ps }

/-- Iterated `closeOne`. -/
def closeN : Nat → CState → CState
  | 0, st => st
  | n + 1, st => closeN n (closeOne st)

/-- Close the chain down to depth `d` (models `header_levels[d:]` being
superseded: those entries are never read again). -/
def closeTo (st : CState) (d : Nat) : CState :=
  closeN (st.rchain.length - d) st

/-- Backfill of skipped levels (`# Add skipped levels` in the source): extend
the chain with placeholder nodes so it reaches depth `d`. -/
def extendTo (st : CState) (d : Nat) : CState :=
  { st with rchain := List.replicate (d - st.rchain.length) (OpenNode.mk none []) ++ st.rchain }

/-- The body of the `for h in html_headers` loop of `_collect_headers`.
`s` is `start_level`; the heading `h` is a body-index/value pair. -/
def step (options : Options) (s : Nat) (st : CState) (h : Nat × Node) : CState :=
  let L := lvlOf h.2
  let f := _is_exclude (h.2.getAttr "id") options
  let excl2 : Nat → Bool := fun j => if j < L then st.excl j else if j = L then f else false
  let st2 : CState := { st with excl := excl2 }
  if (List.range L).any excl2 then st2
  else
    let d := L - s
    let st3 := extendTo (closeTo st2 d) d
    { st3 with rchain := OpenNode.mk (some h) [] :: st3.rchain }

/-- The collector loop over the found headings. -/
def collectFold (options : Options) (s : Nat) (hs : List (Nat × Node)) : CState :=
  hs.foldl (step options s) (CState.mk [] [] (fun _ => false))

/-- `_collect_headers(soup, options, start_level, stop_level)`.  The two
leading `assert` statements become the guard; on success the final chain is
closed and the list of top headers returned. -/
def _collect_headers (soup : Soup) (options : Options) (start_level stop_level : Int) :
    Except TocErr (List HeaderTree) :=
  if 0 ≤ start_level ∧ start_level < stop_level ∧ 0 < stop_level ∧
      stop_level ≤ (_MAX_HEADER_LEVEL : Int) then
    let s := start_level.toNat
    let e := stop_level.toNat
    let hs := find_all soup s e
    .ok (closeTo (collectFold options s hs) 0).doneTop
  else
    .error .assertFail

/-!
### Order injection (`_inject_heading_order` and its inner `inject_order`)

`inject_order` walks the forest depth-first and, for every real node, inserts
a `<span class="pdf-order">` holding the dotted label as the heading's first
inline fragment.  The walk is modelled as computing the list of
(body index, label) insertions in traversal order, applied to the body
afterwards; the document mutations never influence the traversal itself,
so this is observationally the in-place loop of the source.
-/

/-- `'.'.join(str(n) for n in prefix)`. -/
def dotJoin (nums : List Nat) : String :=
  String.intercalate "." (nums.map toString)

/-- The f-string of `logger.warning` for a missed (placeholder) header label. -/
def orderMissedMsg (ps : String) : String :=
  "Assigned number for a missed header " ++ ps

/-- The recursion of `inject_order` (list of headers, current prefix, 1-based
index of the next sibling).  The `assert len(numbers_prefix) < _MAX_HEADER_LEVEL`
guarding each nested call is inlined at the recursion site. -/
def injectOrderFrom : List HeaderTree → List Nat → Nat →
    Except TocErr (List (Nat × String) × List String)
  | [], _, _ => .ok ([], [])
  | .mk elemOpt subs :: rest, pfx, i =>
    let p2 := pfx ++ [i]
    let ps := dotJoin p2
    let own : List (Nat × String) × List String :=
      match elemOpt with
      | some (idx, _) => ([(idx, ps)], [])
      | none => ([], [orderMissedMsg ps])
    match (if subs.length > 0 then
             (if p2.length < _MAX_HEADER_LEVEL then injectOrderFrom subs p2 1
              else .error .assertFail)
           else .ok ([], [])) with
    | .error er => .error er
    | .ok sub =>
      match injectOrderFrom rest pfx (i + 1) with
      | .error er => .error er
      | .ok r => .ok (own.1 ++ sub.1 ++ r.1, own.2 ++ sub.2 ++ r.2)

/-- `inject_order(headers, numbers_prefix)`: assert, then the sibling loop. -/
def inject_order (headers : List HeaderTree) (nums : List Nat) :
    Except TocErr (List (Nat × String) × List String) :=
  if nums.length < _MAX_HEADER_LEVEL then injectOrderFrom headers nums 1
  else .error .assertFail

/-- The `<span class="pdf-order">` holding a label, inserted at position 0 of
a heading's contents (`header.element.insert(0, nm_tag)`). -/
def insertSpanAt0 (ps : String) (n : Node) : Node :=
  match n with
  | .tag nm a cs =>
      .tag nm a (Node.tag "span" [("class", "pdf-order")] [Node.text (ps ++ " ")] :: cs)
  | .text s => .text s

/-- Update the element at index `i` of the body, if present. -/
def listModify (l : List Node) (i : Nat) (f : Node → Node) : List Node :=
  match l.get? i with
  | some x => l.set i (f x)
  | none => l

/-- Apply the label insertions of `inject_order` to the document body. -/
def applyAssignments (body : List Node) (asg : List (Nat × String)) : List Node :=
  asg.foldl (fun b pr => listModify b pr.1 (insertSpanAt0 pr.2)) body

/-- `if options.ignore_top_header: 1 else 0` — the effective start level. -/
def effStart (options : Options) : Int :=
  if options.ignore_top_header then 1 else 0

/-- Clamping of a stop level to `_MAX_HEADER_LEVEL`. -/
def clampStop (v : Int) : Int :=
  if v > (_MAX_HEADER_LEVEL : Int) then (_MAX_HEADER_LEVEL : Int) else v

/-- The clamp warning of `_inject_heading_order`. -/
def ordClampMsg (v : Int) : String :=
  "Ignore `ordered_chapter_level` value " ++ toString v ++ ". Use max possible 6 instead"

/-- The clamp warning of `make_indexes` (TOC stage). -/
def tocClampMsg (v : Int) : String :=
  "Ignore `toc_level` value " ++ toString v ++ ". Use max possible 6 instead"

/-- `_inject_heading_order(soup, options)`: window checks, collection, then
the numbering walk; returns the updated document and the warnings emitted. -/
def _inject_heading_order (soup : Soup) (options : Options) :
    Except TocErr (Soup × List String) :=
  let start_level := effStart options
  let stop_level := options.ordered_chapter_level
  if stop_level ≤ start_level then .ok (soup, [])
  else
    let clampWs : List String :=
      if stop_level > (_MAX_HEADER_LEVEL : Int) then [ordClampMsg stop_level] else []
    match _collect_headers soup options start_level (clampStop stop_level) with
    | .error er => .error er
    | .ok top_headers =>
      match inject_order top_headers [] with
      | .error er => .error er
      | .ok (asg, ws) => .ok (Soup.mk (applyAssignments soup.body asg), clampWs ++ ws)

/-!
### TOC building (`make_link`, `create_toc` and the TOC half of `make_indexes`)
-/

/-- Modelled from the spec: `clone_element` of
`mkdocs_with_pdf/utils/soup_util.py` (not among the given sources) produces a
deep copy of an element; on immutable values a deep copy is the value itself. -/
def clone_element (n : Node) : Node := n

/-- The fragment loop of `make_link`: for each fragment of the heading, a link
fragment (`el.name == 'a'`) contributes `el.contents[0]` to the new link —
bs4 `append` relocates an element that already has a parent, so that first
child is detached from the inner link — while any other fragment is cloned.
Returns (contents of the new link, resulting contents of the heading);
an empty inner link raises `IndexError` (`el.contents[0]`). -/
def makeLinkFrags : List Node → Except TocErr (List Node × List Node)
  | [] => .ok ([], [])
  | el :: rest =>
    match el with
    | .tag nm a cs =>
      if nm = "a" then
        match cs with
        | [] => .error .indexErr
        | c :: cs2 =>
          match makeLinkFrags rest with
          | .error er => .error er
          | .ok (ra, rh) => .ok (c :: ra, Node.tag nm a cs2 :: rh)
      else
        match makeLinkFrags rest with
        | .error er => .error er
        | .ok (ra, rh) => .ok (clone_element (Node.tag nm a cs) :: ra, Node.tag nm a cs :: rh)
    | .text s =>
      match makeLinkFrags rest with
      | .error er => .error er
      | .ok (ra, rh) => .ok (clone_element (Node.text s) :: ra, Node.text s :: rh)

/-- `make_link(h)`: build the `<li><a href="#id">...</a></li>` entry; also
returns the heading as it is left after the loop's detachments. -/
def make_link (h : Node) : Except TocErr (Node × Node) :=
  let ref := (h.getAttr "id").getD ""
  match makeLinkFrags h.childrenOf with
  | .error er => .error er
  | .ok (aKids, hKids) =>
    .ok (Node.tag "li" [] [Node.tag "a" [("href", "#" ++ ref)] aKids], h.withChildren hKids)

/-- The `logger.warning` text for a placeholder reaching the TOC. -/
def tocMissedMsg : String := "Adding missed header to TOC"

/-- The sibling loop of `create_toc`: produces the `li` entries for a header
list, threading the document body (mutated by `make_link`) and warnings. -/
def createTocItems : List Node → List HeaderTree →
    Except TocErr (List Node × List Node × List String)
  | body, [] => .ok ([], body, [])
  | body, .mk elemOpt subs :: rest =>
    match (show Except TocErr (Node × List Node × List String) from
           match elemOpt with
           | some (idx, el) =>
             (match make_link el with
              | .error er => .error er
              | .ok (li, el2) => .ok (li, body.set idx el2, ([] : List String)))
           | none => .ok (Node.tag "li" [] [], body, [tocMissedMsg])) with
    | .error er => .error er
    | .ok (li, body2, w0) =>
      match (show Except TocErr (Node × List Node × List String) from
             if subs.length > 0 then
               (match createTocItems body2 subs with
                | .error er => .error er
                | .ok (lis, b3, w) =>
                  .ok (appendChild li (Node.tag "ul" [] lis), b3, w))
             else .ok (li, body2, ([] : List String))) with
      | .error er => .error er
      | .ok (li2, body3, w1) =>
        match createTocItems body3 rest with
        | .error er => .error er
        | .ok (lis, body4, w2) => .ok (li2 :: lis, body4, w0 ++ w1 ++ w2)

/-- `create_toc(headers, parent)`: a fresh `ul` appended into the parent; here
the `ul` is returned and the caller places it. -/
def create_toc (body : List Node) (headers : List HeaderTree) :
    Except TocErr (Node × List Node × List String) :=
  match createTocItems body headers with
  | .error er => .error er
  | .ok (lis, b2, w) => .ok (Node.tag "ul" [] lis, b2, w)

/-- The TOC node: `<article id="doc-toc">` holding the `h1` title and the list. -/
def tocArticle (title : String) (ul : Node) : Node :=
  Node.tag "article" [("id", "doc-toc")] [Node.tag "h1" [] [Node.text title], ul]

/-- Step 2 of `make_indexes`: generate the TOC page and insert it at position
0 of the body. -/
def tocStage (soup : Soup) (options : Options) : Except TocErr (Soup × List String) :=
  let start_level := effStart options
  let stop_level := options.toc_level
  if stop_level ≤ start_level then .ok (soup, [])
  else
    let clampWs : List String :=
      if stop_level > (_MAX_HEADER_LEVEL : Int) then [tocClampMsg stop_level] else []
    match _collect_headers soup options start_level (clampStop stop_level) with
    | .error er => .error er
    | .ok top_headers =>
      match create_toc soup.body top_headers with
      | .error er => .error er
      | .ok (ul, body2, ws) =>
        .ok (Soup.mk (tocArticle options.toc_title ul :: body2), clampWs ++ ws)

/-- `make_indexes(soup, options)`: step 1 (ordered headings), then step 2
(TOC generation); warnings in chronological order. -/
def make_indexes (soup : Soup) (options : Options) : Except TocErr (Soup × List String) :=
  match _inject_heading_order soup options with
  | .error er => .error er
  | .ok (soup1, w1) =>
    match tocStage soup1 options with
    | .error er => .error er
    | .ok (soup2, w2) => .ok (soup2, w1 ++ w2)

/-!
### Observables used by the verification

`realsF` lists the real elements of a forest in depth-first pre-order;
`hasExclAnc` is the claim-side "some structural ancestor is excluded"
predicate over the flat window-heading sequence; `nodeAt` addresses a forest
node by its path of 0-based child indices.
-/

/-- The singleton or empty reference list of an optional element. -/
def optRef (e : Option (Nat × Node)) : List (Nat × Node) :=
  match e with
  | some pr => [pr]
  | none => []

/-- Real elements of a forest in depth-first pre-order (a node's element
before its subtree, subtrees in sibling order). -/
def realsF : List HeaderTree → List (Nat × Node)
  | [] => []
  | .mk e subs :: rest => optRef e ++ realsF subs ++ realsF rest

/-- Default heading used by positional lookups (never a window heading). -/
def dfltH : Nat × Node := (0, Node.text "")

/-- The 0-based level of the heading at position `q` of the found sequence. -/
def lvlAt (hs : List (Nat × Node)) (q : Nat) : Nat :=
  lvlOf (hs.getD q dfltH).2

/-- Whether the heading at position `q` is itself excluded by its id. -/
def exAt (options : Options) (hs : List (Nat × Node)) (q : Nat) : Bool :=
  _is_exclude ((hs.getD q dfltH).2.getAttr "id") options

/-- Claim-side predicate: some structural ancestor of the heading at position
`p` is excluded.  `q` is a structural ancestor of `p` exactly when it
precedes `p` at a strictly smaller level with no intermediate heading at a
level `≤` its own. -/
def hasExclAnc (options : Options) (hs : List (Nat × Node)) (p : Nat) : Bool :=
  (List.range p).any (fun q =>
    exAt options hs q && decide (lvlAt hs q < lvlAt hs p) &&
    (List.range (p - (q + 1))).all (fun k => decide (lvlAt hs q < lvlAt hs (q + 1 + k))))

/-- The window headings that survive into the forest: those with no excluded
structural ancestor, in document order. -/
def includedRefs (options : Options) (hs : List (Nat × Node)) : List (Nat × Node) :=
  ((List.range hs.length).filter (fun p => !(hasExclAnc options hs p))).map
    (fun p => hs.getD p dfltH)

/-- Forest node addressed by a path of 0-based child indices. -/
def nodeAt : List Nat → List HeaderTree → Option HeaderTree
  | [], _ => none
  | j :: rest, headers =>
    match headers.get? j with
    | none => none
    | some h => match rest with
      | [] => some h
      | _ :: _ => nodeAt rest h.subheaders

/-- The dotted label the claim assigns to the node at `path`: 1-based sibling
indices joined with dots. -/
def pathLabel (path : List Nat) : String :=
  dotJoin (path.map (· + 1))

/-- A fragment that makes `make_link` raise: an inner link with no children. -/
def aEmptyFrag : Node → Bool
  | .tag nm _ cs => nm == "a" && cs.isEmpty
  | .text _ => false

/-- What a heading fragment contributes to the TOC link: a link fragment
contributes its first child, anything else is contributed whole (cloned). -/
def contribFrag (el : Node) : Node :=
  match el with
  | .tag nm a cs =>
      if nm = "a" then (match cs with | c :: _ => c | [] => Node.tag nm a cs)
      else Node.tag nm a cs
  | .text s => .text s

/-- What remains of a heading fragment after `make_link`: a link fragment
loses its first child (it was moved, not cloned), anything else is intact. -/
def residueFrag (el : Node) : Node :=
  match el with
  | .tag nm a cs =>
      if nm = "a" then Node.tag nm a cs.tail else Node.tag nm a cs
  | .text s => .text s

/-!
### Reals bookkeeping for the collector state
-/

/-- Real elements contributed by the open chain (outermost ancestors first). -/
def chainReals : List OpenNode → List (Nat × Node)
  | [] => []
  | o :: ps => chainReals ps ++ (optRef o.element ++ realsF o.doneChildren)

/-- All real elements of a collector state, in the pre-order the finished
forest will have. -/
def realsState (st : CState) : List (Nat × Node) :=
  realsF st.doneTop ++ chainReals st.rchain

/-- The heading that currently owns `exclude_levels[j]` is excluded. -/
def ExSpec (options : Options) (hs : List (Nat × Node)) (j : Nat) : Prop :=
  ∃ q, q < hs.length ∧ lvlAt hs q = j ∧ exAt options hs q = true ∧
    ∀ r, q < r → r < hs.length → j < lvlAt hs r

/-- Some structural ancestor of position `p` is excluded (Prop form). -/
def AncSpec (options : Options) (hs : List (Nat × Node)) (p : Nat) : Prop :=
  ∃ q, q < p ∧ exAt options hs q = true ∧ lvlAt hs q < lvlAt hs p ∧
    ∀ r, q < r → r < p → lvlAt hs q < lvlAt hs r

/-- The collector-state exclusion flags realize `ExSpec`. -/
def InvEx (options : Options) (pre : List (Nat × Node)) (excl : Nat → Bool) : Prop :=
  ∀ j, excl j = true ↔ ExSpec options pre j

/-- Sibling numbers along a path when the first level starts counting at `i`. -/
def pathNums (i : Nat) : List Nat → List Nat
  | [] => []
  | j :: rest => (i + j) :: rest.map (· + 1)

theorem realsF_append (xs ys : List HeaderTree) :
    realsF (xs ++ ys) = realsF xs ++ realsF ys := by
  induction xs with
  | nil => simp [realsF]
  | cons x rest ih =>
    cases x with
    | mk e subs => simp [realsF, ih]

theorem realsState_closeOne (st : CState) : realsState (closeOne st) = realsState st := by
  cases st with
  | mk doneTop rchain excl =>
    cases rchain with
    | nil => rfl
    | cons o rest =>
      cases rest with
      | nil =>
        simp [closeOne, realsState, chainReals, realsF_append, realsF, optRef]
      | cons p ps =>
        simp [closeOne, realsState, chainReals, realsF_append, realsF]

theorem realsState_closeN (n : Nat) (st : CState) : realsState (closeN n st) = realsState st := by
  induction n generalizing st with
  | zero => rfl
  | succ m ih => simp [closeN, ih, realsState_closeOne]

theorem excl_closeOne (st : CState) : (closeOne st).excl = st.excl := by
  cases st with
  | mk doneTop rchain excl =>
    cases rchain with
    | nil => rfl
    | cons o rest => cases rest <;> rfl

theorem excl_closeN (n : Nat) (st : CState) : (closeN n st).excl = st.excl := by
  induction n generalizing st with
  | zero => rfl
  | succ m ih => simp [closeN, ih, excl_closeOne]

theorem rchain_closeOne_length (st : CState) :
    (closeOne st).rchain.length = st.rchain.length - 1 := by
  cases st with
  | mk doneTop rchain excl =>
    cases rchain with
    | nil => rfl
    | cons o rest => cases rest <;> simp [closeOne]

theorem rchain_closeN (n : Nat) (st : CState) (h : st.rchain.length ≤ n) :
    (closeN n st).rchain = [] := by
  induction n generalizing st with
  | zero =>
    simp [closeN]
    exact List.eq_nil_of_length_eq_zero (Nat.le_zero.mp h)
  | succ m ih =>
    simp only [closeN]
    exact ih _ (by have := rchain_closeOne_length st; omega)

theorem chainReals_replicate (k : Nat) (ch : List OpenNode) :
    chainReals (List.replicate k (OpenNode.mk none []) ++ ch) = chainReals ch := by
  induction k with
  | zero => rfl
  | succ m ih => simp [List.replicate_succ, chainReals, ih, optRef, realsF]

theorem realsState_extendTo (st : CState) (d : Nat) :
    realsState (extendTo st d) = realsState st := by
  simp [extendTo, realsState, chainReals_replicate]

theorem realsState_push (st : CState) (h : Nat × Node) :
    realsState { st with rchain := OpenNode.mk (some h) [] :: st.rchain } =
      realsState st ++ [h] := by
  simp [realsState, chainReals, optRef, realsF]

/-!
### Characterizing `exclude_levels`

`ExSpec pre j` says level `j`'s flag should be set after processing `pre`:
the last heading of `pre` at level `j`, not followed by any heading at a
level `≤ j`, is itself excluded.  `AncSpec hs p` is the claim-side
"position `p` has an excluded structural ancestor".
-/



theorem hasExclAnc_iff (options : Options) (hs : List (Nat × Node)) (p : Nat) :
    hasExclAnc options hs p = true ↔ AncSpec options hs p := by
  simp only [hasExclAnc, AncSpec, List.any_eq_true, List.all_eq_true, List.mem_range,
    Bool.and_eq_true, decide_eq_true_eq]
  constructor
  · rintro ⟨q, hq, ⟨hex, hlv⟩, hall⟩
    refine ⟨q, hq, hex, hlv, fun r hqr hrp => ?_⟩
    have h2 := hall (r - (q + 1)) (by omega)
    rwa [show q + 1 + (r - (q + 1)) = r by omega] at h2
  · rintro ⟨q, hq, hex, hlv, hall⟩
    exact ⟨q, hq, ⟨hex, hlv⟩, fun k hk => hall (q + 1 + k) (by omega) (by omega)⟩

theorem lvlAt_append_lt (hs hs2 : List (Nat × Node)) (q : Nat) (h : q < hs.length) :
    lvlAt (hs ++ hs2) q = lvlAt hs q := by
  unfold lvlAt
  rw [List.getD_append _ _ _ _ h]

theorem exAt_append_lt (options : Options) (hs hs2 : List (Nat × Node)) (q : Nat)
    (h : q < hs.length) : exAt options (hs ++ hs2) q = exAt options hs q := by
  unfold exAt
  rw [List.getD_append _ _ _ _ h]

theorem lvlAt_append_self (hs : List (Nat × Node)) (h : Nat × Node) :
    lvlAt (hs ++ [h]) hs.length = lvlOf h.2 := by
  unfold lvlAt
  rw [List.getD_append_right _ _ _ _ (Nat.le_refl hs.length), Nat.sub_self]
  rfl

theorem exAt_append_self (options : Options) (hs : List (Nat × Node)) (h : Nat × Node) :
    exAt options (hs ++ [h]) hs.length = _is_exclude (h.2.getAttr "id") options := by
  unfold exAt
  rw [List.getD_append_right _ _ _ _ (Nat.le_refl hs.length), Nat.sub_self]
  rfl

theorem ancSpec_append (options : Options) (hs : List (Nat × Node)) (h : Nat × Node)
    (p : Nat) (hp : p < hs.length) :
    AncSpec options (hs ++ [h]) p ↔ AncSpec options hs p := by
  unfold AncSpec
  constructor
  · rintro ⟨q, hq, hex, hlv, hall⟩
    refine ⟨q, hq, ?_, ?_, fun r h1 h2 => ?_⟩
    · rwa [exAt_append_lt _ _ _ _ (by omega)] at hex
    · rwa [lvlAt_append_lt _ _ _ (by omega), lvlAt_append_lt _ _ _ (by omega)] at hlv
    · have := hall r h1 h2
      rwa [lvlAt_append_lt _ _ _ (by omega), lvlAt_append_lt _ _ _ (by omega)] at this
  · rintro ⟨q, hq, hex, hlv, hall⟩
    refine ⟨q, hq, ?_, ?_, fun r h1 h2 => ?_⟩
    · rwa [exAt_append_lt _ _ _ _ (by omega)]
    · rwa [lvlAt_append_lt _ _ _ (by omega), lvlAt_append_lt _ _ _ (by omega)]
    · have := hall r h1 h2
      rwa [lvlAt_append_lt _ _ _ (by omega), lvlAt_append_lt _ _ _ (by omega)]

theorem hasExclAnc_append (options : Options) (hs : List (Nat × Node)) (h : Nat × Node)
    (p : Nat) (hp : p < hs.length) :
    hasExclAnc options (hs ++ [h]) p = hasExclAnc options hs p := by
  rw [Bool.eq_iff_iff, hasExclAnc_iff, hasExclAnc_iff]
  exact ancSpec_append options hs h p hp


theorem invEx_nil (options : Options) : InvEx options [] (fun _ => false) := by
  intro j
  simp [ExSpec]

theorem invEx_step (options : Options) (pre : List (Nat × Node)) (excl : Nat → Bool)
    (h : Nat × Node) (hI : InvEx options pre excl) :
    InvEx options (pre ++ [h])
      (fun j => if j < lvlOf h.2 then excl j
                else if j = lvlOf h.2 then _is_exclude (h.2.getAttr "id") options
                else false) := by
  intro j
  by_cases hjL : j < lvlOf h.2
  · simp only [if_pos hjL]
    rw [hI j]
    constructor
    · rintro ⟨q, hq, hlv, hex, hall⟩
      refine ⟨q, by simp only [List.length_append, List.length_singleton]; omega, ?_, ?_,
        fun r h1 h2 => ?_⟩
      · rwa [lvlAt_append_lt _ _ _ hq]
      · rwa [exAt_append_lt _ _ _ _ hq]
      · simp only [List.length_append, List.length_singleton] at h2
        by_cases hr : r < pre.length
        · rw [lvlAt_append_lt _ _ _ hr]
          exact hall r h1 hr
        · have hre : r = pre.length := by omega
          rw [hre, lvlAt_append_self]
          omega
    · rintro ⟨q, hq, hlv, hex, hall⟩
      simp only [List.length_append, List.length_singleton] at hq
      by_cases hql : q < pre.length
      · refine ⟨q, hql, ?_, ?_, fun r h1 h2 => ?_⟩
        · rwa [lvlAt_append_lt _ _ _ hql] at hlv
        · rwa [exAt_append_lt _ _ _ _ hql] at hex
        · have := hall r h1 (by simp only [List.length_append, List.length_singleton]; omega)
          rwa [lvlAt_append_lt _ _ _ h2] at this
      · exfalso
        have hqe : q = pre.length := by omega
        rw [hqe, lvlAt_append_self] at hlv
        omega
  · by_cases hje : j = lvlOf h.2
    · simp only [if_neg hjL, if_pos hje]
      constructor
      · intro hf
        refine ⟨pre.length, by simp, ?_, ?_, fun r h1 h2 => ?_⟩
        · rw [lvlAt_append_self, hje]
        · rw [exAt_append_self, hf]
        · exfalso
          simp only [List.length_append, List.length_singleton] at h2
          omega
      · rintro ⟨q, hq, hlv, hex, hall⟩
        simp only [List.length_append, List.length_singleton] at hq
        by_cases hql : q < pre.length
        · exfalso
          have := hall pre.length (by omega) (by simp)
          rw [lvlAt_append_self] at this
          omega
        · have hqe : q = pre.length := by omega
          rw [hqe, exAt_append_self] at hex
          exact hex
    · simp only [if_neg hjL, if_neg hje, Bool.false_eq_true, false_iff]
      rintro ⟨q, hq, hlv, hex, hall⟩
      simp only [List.length_append, List.length_singleton] at hq
      by_cases hql : q < pre.length
      · have := hall pre.length (by omega) (by simp)
        rw [lvlAt_append_self] at this
        rw [lvlAt_append_lt _ _ _ hql] at hlv
        omega
      · have hqe : q = pre.length := by omega
        rw [hqe, lvlAt_append_self] at hlv
        omega

/-- The source's `any(exclude_levels[:level])` test realizes `AncSpec` for the
heading about to be processed. -/
theorem anyRange_iff (options : Options) (pre : List (Nat × Node)) (excl : Nat → Bool)
    (h : Nat × Node) (hI : InvEx options pre excl) :
    ((List.range (lvlOf h.2)).any excl = true ↔ AncSpec options (pre ++ [h]) pre.length) := by
  rw [List.any_eq_true]
  constructor
  · rintro ⟨j, hj, hex⟩
    rw [List.mem_range] at hj
    obtain ⟨q, hq, hlv, hexq, hall⟩ := (hI j).mp hex
    refine ⟨q, hq, ?_, ?_, fun r h1 h2 => ?_⟩
    · rwa [exAt_append_lt _ _ _ _ hq]
    · rw [lvlAt_append_lt _ _ _ hq, lvlAt_append_self, hlv]
      exact hj
    · rw [lvlAt_append_lt _ _ _ hq, lvlAt_append_lt _ _ _ h2, hlv]
      exact hall r h1 h2
  · rintro ⟨q, hq, hex, hlv, hall⟩
    rw [lvlAt_append_lt _ _ _ hq, lvlAt_append_self] at hlv
    refine ⟨lvlAt pre q, List.mem_range.mpr hlv, (hI _).mpr ⟨q, hq, rfl, ?_, fun r h1 h2 => ?_⟩⟩
    · rwa [exAt_append_lt _ _ _ _ hq] at hex
    · have := hall r h1 h2
      rwa [lvlAt_append_lt _ _ _ hq, lvlAt_append_lt _ _ _ h2] at this

/-- `includedRefs` over a one-longer prefix. -/
theorem includedRefs_snoc (options : Options) (hs : List (Nat × Node)) (h : Nat × Node) :
    includedRefs options (hs ++ [h]) =
      includedRefs options hs ++
        (if hasExclAnc options (hs ++ [h]) hs.length then [] else [h]) := by
  unfold includedRefs
  rw [List.length_append, List.length_singleton, List.range_succ, List.filter_append,
    List.map_append]
  congr 1
  · have hfil : (List.range hs.length).filter
        (fun p => !(hasExclAnc options (hs ++ [h]) p)) =
        (List.range hs.length).filter (fun p => !(hasExclAnc options hs p)) := by
      apply List.filter_congr
      intro p hp
      rw [List.mem_range] at hp
      rw [hasExclAnc_append options hs h p hp]
    rw [hfil]
    apply List.map_congr_left
    intro p hp
    have hpl : p < hs.length := List.mem_range.mp (List.mem_filter.mp hp).1
    rw [List.getD_append _ _ _ _ hpl]
  · cases hE : hasExclAnc options (hs ++ [h]) hs.length with
    | true => simp [List.filter_cons, hE]
    | false =>
      simp only [List.filter_cons, List.filter_nil, hE, Bool.not_false, if_true,
        Bool.false_eq_true, if_false, List.map_cons, List.map_nil]
      rw [List.getD_append_right _ _ _ _ (Nat.le_refl hs.length), Nat.sub_self]
      rfl

/-- One loop iteration preserves both invariants. -/
theorem step_inv (options : Options) (s : Nat) (pre : List (Nat × Node)) (st : CState)
    (h : Nat × Node) (hR : realsState st = includedRefs options pre)
    (hI : InvEx options pre st.excl) :
    realsState (step options s st h) = includedRefs options (pre ++ [h]) ∧
      InvEx options (pre ++ [h]) (step options s st h).excl := by
  unfold step
  set L := lvlOf h.2 with hdefL
  set f := _is_exclude (h.2.getAttr "id") options with hdeff
  set excl2 : Nat → Bool :=
    fun j => if j < L then st.excl j else if j = L then f else false with hex2
  have hInv2 : InvEx options (pre ++ [h]) excl2 := invEx_step options pre st.excl h hI
  have hagree : ∀ j ∈ List.range L, excl2 j = st.excl j := by
    intro j hj
    rw [List.mem_range] at hj
    simp [hex2, hj]
  have hanyc : (List.range L).any excl2 = (List.range L).any st.excl := by
    rw [Bool.eq_iff_iff, List.any_eq_true, List.any_eq_true]
    constructor
    · rintro ⟨j, hj, hx⟩
      exact ⟨j, hj, by rwa [hagree j hj] at hx⟩
    · rintro ⟨j, hj, hx⟩
      exact ⟨j, hj, by rwa [hagree j hj]⟩
  have hcheck : ((List.range L).any excl2 = true) ↔ AncSpec options (pre ++ [h]) pre.length := by
    rw [hanyc]
    exact anyRange_iff options pre st.excl h hI
  by_cases hskip : (List.range L).any excl2 = true
  · rw [if_pos hskip]
    constructor
    · have hanc : hasExclAnc options (pre ++ [h]) pre.length = true :=
        (hasExclAnc_iff _ _ _).mpr (hcheck.mp hskip)
      rw [includedRefs_snoc, hanc, if_pos rfl, List.append_nil]
      exact hR
    · exact hInv2
  · rw [if_neg hskip]
    constructor
    · have hanc : hasExclAnc options (pre ++ [h]) pre.length = false := by
        rw [Bool.eq_false_iff]
        intro hc
        exact hskip (hcheck.mpr ((hasExclAnc_iff _ _ _).mp hc))
      rw [includedRefs_snoc, hanc]
      simp only [Bool.false_eq_true, if_false]
      rw [realsState_push, realsState_extendTo]
      unfold closeTo
      rw [realsState_closeN]
      have hsame : realsState { st with excl := excl2 } = realsState st := rfl
      rw [hsame, hR]
    · have hexcl := excl_closeN (({ st with excl := excl2 } : CState).rchain.length - (L - s))
        { st with excl := excl2 }
      show InvEx options (pre ++ [h])
        (closeN (({ st with excl := excl2 } : CState).rchain.length - (L - s))
          { st with excl := excl2 }).excl
      rw [hexcl]
      exact hInv2

/-- The collector loop invariant, folded over any heading sequence. -/
theorem fold_inv (options : Options) (s : Nat) (hs : List (Nat × Node)) :
    ∀ (pre : List (Nat × Node)) (st : CState),
      realsState st = includedRefs options pre → InvEx options pre st.excl →
      realsState (hs.foldl (step options s) st) = includedRefs options (pre ++ hs) ∧
        InvEx options (pre ++ hs) (hs.foldl (step options s) st).excl := by
  induction hs with
  | nil =>
    intro pre st h1 h2
    simpa using ⟨h1, h2⟩
  | cons h tl ih =>
    intro pre st h1 h2
    have hstep := step_inv options s pre st h h1 h2
    have hrest := ih (pre ++ [h]) (step options s st h) hstep.1 hstep.2
    simpa [List.append_assoc] using hrest

/-- Main collector theorem: the real nodes of the returned forest, in
depth-first pre-order, are exactly the window headings without an excluded
structural ancestor, in document order. -/
theorem collect_reals (soup : Soup) (options : Options) (s e : Int)
    (F : List HeaderTree) (hok : _collect_headers soup options s e = .ok F) :
    realsF F = includedRefs options (find_all soup s.toNat e.toNat) := by
  unfold _collect_headers at hok
  split at hok
  case isFalse => exact absurd hok (by simp)
  case isTrue hg =>
    simp only [Except.ok.injEq] at hok
    subst hok
    set hs := find_all soup s.toNat e.toNat with hdefhs
    have hinit := fold_inv options s.toNat hs [] (CState.mk [] [] (fun _ => false))
      (by simp [realsState, realsF, chainReals, includedRefs]) (invEx_nil options)
    simp only [List.nil_append] at hinit
    have hfin : realsState (closeTo (collectFold options s.toNat hs) 0) =
        realsState (collectFold options s.toNat hs) := by
      unfold closeTo
      exact realsState_closeN _ _
    have hne : (closeTo (collectFold options s.toNat hs) 0).rchain = [] := by
      unfold closeTo
      exact rchain_closeN _ _ (by omega)
    have : realsState (closeTo (collectFold options s.toNat hs) 0) =
        realsF (closeTo (collectFold options s.toNat hs) 0).doneTop := by
      unfold realsState
      rw [hne]
      simp [chainReals]
    rw [← this, hfin]
    exact hinit.1

/-!
### Supporting lemmas for the claim theorems
-/

theorem isExclude_empty (options : Options) (hex : options.excludes_children = [])
    (u : Option String) : _is_exclude u options = false := by
  cases u with
  | none => rfl
  | some v => simp [_is_exclude, hex]

theorem lvl_h1 (a : List (String × String)) (cs : List Node) :
    lvlOf (Node.tag "h1" a cs) = 0 := rfl

theorem lvl_h4 (a : List (String × String)) (cs : List Node) :
    lvlOf (Node.tag "h4" a cs) = 3 := rfl

/-- Closed form of the `make_link` fragment loop when no inner link is empty. -/
theorem makeLinkFrags_eq (cs : List Node) (hne : ∀ el ∈ cs, aEmptyFrag el = false) :
    makeLinkFrags cs = .ok (cs.map contribFrag, cs.map residueFrag) := by
  induction cs with
  | nil => rfl
  | cons el rest ih =>
    have h1 := hne el (List.mem_cons_self _ _)
    have h2 : ∀ x ∈ rest, aEmptyFrag x = false := fun x hx => hne x (List.mem_cons_of_mem _ hx)
    cases el with
    | text s => simp [makeLinkFrags, ih h2, contribFrag, residueFrag, clone_element]
    | tag nm a cs2 =>
      by_cases hnm : nm = "a"
      · subst hnm
        cases cs2 with
        | nil => simp [aEmptyFrag] at h1
        | cons c cs3 =>
          simp [makeLinkFrags, ih h2, contribFrag, residueFrag, List.tail]
      · simp [makeLinkFrags, hnm, ih h2, contribFrag, residueFrag, clone_element]

/-- Closed form of `make_link` when no inner link is empty. -/
theorem make_link_eq (nm : String) (a : List (String × String)) (cs : List Node)
    (hne : ∀ el ∈ cs, aEmptyFrag el = false) :
    make_link (Node.tag nm a cs) =
      .ok (Node.tag "li" []
             [Node.tag "a" [("href", "#" ++ ((Node.tag nm a cs).getAttr "id").getD "")]
               (cs.map contribFrag)],
           Node.tag nm a (cs.map residueFrag)) := by
  unfold make_link
  rw [show (Node.tag nm a cs).childrenOf = cs from rfl, makeLinkFrags_eq cs hne]
  rfl

/-- Unfolding of `make_indexes` past a successful numbering stage. -/
theorem make_indexes_run (soup : Soup) (options : Options) (s1 : Soup) (w1 : List String)
    (hinj : _inject_heading_order soup options = .ok (s1, w1)) :
    make_indexes soup options =
      (match tocStage s1 options with
       | .error er => .error er
       | .ok (s2, w2) => .ok (s2, w1 ++ w2)) := by
  unfold make_indexes
  rw [hinj]

/-- Unfolding of the TOC stage past a successful collection. -/
theorem tocStage_run (soup : Soup) (options : Options) (F : List HeaderTree)
    (hgate : ¬ options.toc_level ≤ effStart options)
    (hcoll : _collect_headers soup options (effStart options) (clampStop options.toc_level) =
      .ok F) :
    tocStage soup options =
      (match createTocItems soup.body F with
       | .error er => .error er
       | .ok (lis, b2, w) =>
         .ok (Soup.mk (tocArticle options.toc_title (Node.tag "ul" [] lis) :: b2),
           (if options.toc_level > (_MAX_HEADER_LEVEL : Int)
            then [tocClampMsg options.toc_level] else []) ++ w)) := by
  unfold tocStage create_toc
  rw [if_neg hgate, hcoll]
  cases hc : createTocItems soup.body F with
  | error er => simp [hc]
  | ok r =>
    obtain ⟨lis, b2, w⟩ := r
    simp [hc]

/-- Unfolding of `_inject_heading_order` past a successful collection. -/
theorem injectStage_run (soup : Soup) (options : Options) (F : List HeaderTree)
    (hgate : ¬ options.ordered_chapter_level ≤ effStart options)
    (hcoll : _collect_headers soup options (effStart options)
        (clampStop options.ordered_chapter_level) = .ok F) :
    _inject_heading_order soup options =
      (match inject_order F [] with
       | .error er => .error er
       | .ok (asg, ws) =>
         .ok (Soup.mk (applyAssignments soup.body asg),
           (if options.ordered_chapter_level > (_MAX_HEADER_LEVEL : Int)
            then [ordClampMsg options.ordered_chapter_level] else []) ++ ws)) := by
  unfold _inject_heading_order
  rw [if_neg hgate, hcoll]


theorem nodeAt_cons_succ (j : Nat) (rest : List Nat) (h : HeaderTree) (tl : List HeaderTree) :
    nodeAt ((j + 1) :: rest) (h :: tl) = nodeAt (j :: rest) tl := by
  cases rest <;> simp [nodeAt]

theorem nodeAt_nil_none (path : List Nat) (hne : path ≠ []) : nodeAt path [] = none := by
  cases path with
  | nil => exact absurd rfl hne
  | cons j rest => simp [nodeAt]

theorem injectOrderFrom_mem :
    ∀ (path : List Nat) (headers : List HeaderTree) (pfx : List Nat) (i : Nat)
      (asg : List (Nat × String)) (ws : List String) (node : HeaderTree),
      nodeAt path headers = some node →
      injectOrderFrom headers pfx i = .ok (asg, ws) →
      ∀ idx el, node.element = some (idx, el) →
      (idx, dotJoin (pfx ++ pathNums i path)) ∈ asg := by
  intro path
  induction path with
  | nil =>
    intro headers pfx i asg ws node h
    simp [nodeAt] at h
  | cons j rest ihrest =>
    induction j with
    | zero =>
      intro headers pfx i asg ws node hat hrun idx el hel
      cases headers with
      | nil => simp [nodeAt] at hat
      | cons h tl =>
        cases h with
        | mk elemOpt subs =>
          rw [injectOrderFrom.eq_def] at hrun
          dsimp only at hrun
          cases hsub : (if subs.length > 0 then
              (if (pfx ++ [i]).length < _MAX_HEADER_LEVEL then injectOrderFrom subs (pfx ++ [i]) 1
               else .error .assertFail)
            else (.ok ([], []) : Except TocErr (List (Nat × String) × List String))) with
          | error er => rw [hsub] at hrun; simp at hrun
          | ok sub =>
            rw [hsub] at hrun
            cases hr : injectOrderFrom tl pfx (i + 1) with
            | error er => rw [hr] at hrun; simp at hrun
            | ok r =>
              rw [hr] at hrun
              simp only [Except.ok.injEq, Prod.mk.injEq] at hrun
              obtain ⟨hasg, hws⟩ := hrun
              cases rest with
              | nil =>
                have hnode : HeaderTree.mk elemOpt subs = node := by simpa [nodeAt] using hat
                subst hnode
                simp only [HeaderTree.element] at hel
                subst hasg
                rw [hel]
                simp [pathNums, dotJoin]
              | cons r0 rr =>
                -- node is inside subs
                have hat2 : nodeAt (r0 :: rr) subs = some node := by
                  simpa [nodeAt] using hat
                have hsubs_ne : subs.length > 0 := by
                  cases subs with
                  | nil => rw [nodeAt_nil_none _ (by simp)] at hat2; exact absurd hat2 (by simp)
                  | cons a b => simp
                rw [if_pos hsubs_ne] at hsub
                cases hlen : decide ((pfx ++ [i]).length < _MAX_HEADER_LEVEL) with
                | false =>
                  rw [if_neg (by simpa using hlen)] at hsub
                  simp at hsub
                | true =>
                  rw [if_pos (by simpa using hlen)] at hsub
                  have hmem := ihrest subs (pfx ++ [i]) 1 sub.1 sub.2 node hat2
                    (by rw [hsub]) idx el hel
                  subst hasg
                  apply List.mem_append_left
                  apply List.mem_append_right
                  have : (pfx ++ [i]) ++ pathNums 1 (r0 :: rr) = pfx ++ pathNums i (0 :: r0 :: rr) := by
                    simp [pathNums, Nat.add_comm]
                  rwa [this] at hmem
    | succ j ihj =>
      intro headers pfx i asg ws node hat hrun idx el hel
      cases headers with
      | nil => simp [nodeAt] at hat
      | cons h tl =>
        cases h with
        | mk elemOpt subs =>
          rw [nodeAt_cons_succ] at hat
          rw [injectOrderFrom.eq_def] at hrun
          dsimp only at hrun
          cases hsub : (if subs.length > 0 then
              (if (pfx ++ [i]).length < _MAX_HEADER_LEVEL then injectOrderFrom subs (pfx ++ [i]) 1
               else .error .assertFail)
            else (.ok ([], []) : Except TocErr (List (Nat × String) × List String))) with
          | error er => rw [hsub] at hrun; simp at hrun
          | ok sub =>
            rw [hsub] at hrun
            cases hr : injectOrderFrom tl pfx (i + 1) with
            | error er => rw [hr] at hrun; simp at hrun
            | ok r =>
              rw [hr] at hrun
              simp only [Except.ok.injEq, Prod.mk.injEq] at hrun
              obtain ⟨hasg, hws⟩ := hrun
              have hmem := ihj tl pfx (i + 1) r.1 r.2 node hat (by rw [hr]) idx el hel
              subst hasg
              apply List.mem_append_right
              have : pfx ++ pathNums (i + 1) (j :: rest) = pfx ++ pathNums i ((j + 1) :: rest) := by
                simp [pathNums]
                omega
              rwa [this] at hmem

theorem pathNums_one (path : List Nat) : pathNums 1 path = path.map (· + 1) := by
  cases path with
  | nil => rfl
  | cons j rest => simp [pathNums, Nat.add_comm]

theorem listModify_get?_other (b : List Node) (k i : Nat) (f : Node → Node) (hki : k ≠ i) :
    (listModify b k f).get? i = b.get? i := by
  unfold listModify
  cases hb : b.get? k with
  | none => rfl
  | some x =>
    simp only [List.get?_eq_getElem?] at *
    rw [List.getElem?_set_ne hki]

theorem listModify_get?_self (b : List Node) (i : Nat) (f : Node → Node) :
    (listModify b i f).get? i = (b.get? i).map f := by
  unfold listModify
  cases hb : b.get? i with
  | none => exact hb
  | some x =>
    have hlen : i < b.length := by
      by_contra hc
      rw [List.get?_eq_getElem?, List.getElem?_eq_none (by omega)] at hb
      exact absurd hb (by simp)
    show (b.set i (f x)).get? i = Option.map f (some x)
    rw [List.get?_eq_getElem?, List.getElem?_set_self hlen]
    rfl

theorem applyAssignments_get_notmem :
    ∀ (asg : List (Nat × String)) (body : List Node) (i : Nat),
      i ∉ asg.map Prod.fst →
      (applyAssignments body asg).get? i = body.get? i := by
  intro asg
  induction asg with
  | nil => intro body i h; rfl
  | cons a rest ih =>
    intro body i h
    simp only [List.map_cons, List.mem_cons] at h
    push_neg at h
    have h1 : a.1 ≠ i := fun hc => h.1 hc.symm
    have h2 := ih (listModify body a.1 (insertSpanAt0 a.2)) i h.2
    calc (applyAssignments body (a :: rest)).get? i
        = (applyAssignments (listModify body a.1 (insertSpanAt0 a.2)) rest).get? i := rfl
      _ = (listModify body a.1 (insertSpanAt0 a.2)).get? i := h2
      _ = body.get? i := listModify_get?_other _ _ _ _ h1

theorem applyAssignments_get :
    ∀ (asg : List (Nat × String)) (body : List Node) (i : Nat) (p : String),
      (i, p) ∈ asg → (asg.map Prod.fst).Nodup →
      (applyAssignments body asg).get? i = (body.get? i).map (insertSpanAt0 p) := by
  intro asg
  induction asg with
  | nil => intro body i p h; simp at h
  | cons a rest ih =>
    intro body i p hmem hnd
    simp only [List.map_cons, List.nodup_cons] at hnd
    rcases List.mem_cons.mp hmem with heq | hmem2
    · have hi : a.1 = i := by rw [← heq]
      have hp : a.2 = p := by rw [← heq]
      subst hi
      subst hp
      have hnotin : a.1 ∉ rest.map Prod.fst := hnd.1
      calc (applyAssignments body (a :: rest)).get? a.1
          = (applyAssignments (listModify body a.1 (insertSpanAt0 a.2)) rest).get? a.1 := rfl
        _ = (listModify body a.1 (insertSpanAt0 a.2)).get? a.1 :=
            applyAssignments_get_notmem rest _ a.1 hnotin
        _ = (body.get? a.1).map (insertSpanAt0 a.2) := listModify_get?_self _ _ _
    · have hiin : i ∈ rest.map Prod.fst :=
        List.mem_map.mpr ⟨(i, p), hmem2, rfl⟩
      have hne : a.1 ≠ i := fun hc => hnd.1 (hc ▸ hiin)
      calc (applyAssignments body (a :: rest)).get? i
          = (applyAssignments (listModify body a.1 (insertSpanAt0 a.2)) rest).get? i := rfl
        _ = ((listModify body a.1 (insertSpanAt0 a.2)).get? i).map (insertSpanAt0 p) :=
            ih _ i p hmem2 hnd.2
        _ = (body.get? i).map (insertSpanAt0 p) := by
            rw [listModify_get?_other _ _ _ _ hne]

theorem isExclude_congr (o1 o2 : Options) (h : o1.excludes_children = o2.excludes_children)
    (u : Option String) : _is_exclude u o1 = _is_exclude u o2 := by
  cases u <;> simp [_is_exclude, h]

theorem step_congr (o1 o2 : Options) (h : o1.excludes_children = o2.excludes_children)
    (s : Nat) : step o1 s = step o2 s := by
  funext st hh
  unfold step
  rw [isExclude_congr o1 o2 h]

/-- `_collect_headers` reads only `excludes_children` from the options. -/
theorem collect_congr (soup : Soup) (o1 o2 : Options) (s e : Int)
    (h : o1.excludes_children = o2.excludes_children) :
    _collect_headers soup o1 s e = _collect_headers soup o2 s e := by
  unfold _collect_headers collectFold
  simp only [step_congr o1 o2 h]

/-- Both entry points call the collector only with a valid window. -/
theorem collect_ok_clamped (soup : Soup) (options : Options) (v : Int)
    (hv : ¬ v ≤ effStart options) :
    ∃ F, _collect_headers soup options (effStart options) (clampStop v) = .ok F := by
  have key : 0 ≤ effStart options ∧ effStart options < clampStop v ∧ 0 < clampStop v ∧
      clampStop v ≤ (_MAX_HEADER_LEVEL : Int) := by
    have h6 : ((_MAX_HEADER_LEVEL : Nat) : Int) = 6 := rfl
    have he : effStart options = 0 ∨ effStart options = 1 := by
      unfold effStart
      split
      · right; rfl
      · left; rfl
    unfold clampStop
    rw [h6]
    rcases he with h0 | h0 <;> rw [h0] at hv ⊢ <;> split <;> omega
  unfold _collect_headers
  rw [if_pos key]
  exact ⟨_, rfl⟩

/-!
### Claim theorems
-/

/-- C1 (amended): for every document, window and exclude set, the forest
returned by `_collect_headers` contains exactly one real node for every
window heading none of whose structural ancestors is excluded — including a
heading whose own id is in the exclude set — and zero nodes (real or
placeholder) for every heading structurally nested under an excluded
heading: the pre-order list of real elements equals the document-order list
of headings without an excluded ancestor. -/
theorem c1_collect_realNodes (soup : Soup) (options : Options) (s e : Int)
    (F : List HeaderTree) (hok : _collect_headers soup options s e = .ok F) :
    realsF F = includedRefs options (find_all soup s.toNat e.toNat) :=
  collect_reals soup options s e F hok

theorem c1_collect_realNodes_witness :
    realsF [HeaderTree.mk (some (0, Node.tag "h1" [("id", "A")] []))
        [HeaderTree.mk (some (1, Node.tag "h2" [("id", "B")] [])) []]] =
      includedRefs (Options.mk false 6 6 "T" ["B"])
        (find_all (Soup.mk [Node.tag "h1" [("id", "A")] [], Node.tag "h2" [("id", "B")] [],
          Node.tag "h3" [("id", "C")] []]) (0 : Int).toNat (6 : Int).toNat) :=
  c1_collect_realNodes
    (Soup.mk [Node.tag "h1" [("id", "A")] [], Node.tag "h2" [("id", "B")] [],
      Node.tag "h3" [("id", "C")] []])
    (Options.mk false 6 6 "T" ["B"]) 0 6
    [HeaderTree.mk (some (0, Node.tag "h1" [("id", "A")] []))
      [HeaderTree.mk (some (1, Node.tag "h2" [("id", "B")] [])) []]]
    (by rfl)

/-- C1 counterexample: with headings `h1(id=A) > h2(id=B) > h3(id=C)` and
exclude set `{B}`, the claim says B and C are both absent and A's children
list is empty; the code keeps B itself (the skip test is
`any(exclude_levels[:level])`, which never consults the heading's own flag),
so the forest is `A ▸ [B]` — its real body indices are `[0, 1]`, i.e. the
excluded heading B (index 1) appears, and A has a child. -/
theorem c1_counterexample :
    _collect_headers
        (Soup.mk [Node.tag "h1" [("id", "A")] [], Node.tag "h2" [("id", "B")] [],
          Node.tag "h3" [("id", "C")] []])
        (Options.mk false 6 6 "T" ["B"]) 0 6 =
      .ok [HeaderTree.mk (some (0, Node.tag "h1" [("id", "A")] []))
        [HeaderTree.mk (some (1, Node.tag "h2" [("id", "B")] [])) []]] ∧
    (realsF [HeaderTree.mk (some (0, Node.tag "h1" [("id", "A")] []))
        [HeaderTree.mk (some (1, Node.tag "h2" [("id", "B")] [])) []]]).map Prod.fst =
      [0, 1] :=
  ⟨rfl, by simp [realsF, optRef]⟩

/-- C2: a document whose only headings sit at levels 0 and 3, collected with
window `[0, 6)` and no exclusions, yields a single chain with exactly two
synthesized placeholders at levels 1 and 2 linking the level-0 heading to the
level-3 heading. -/
theorem c2_skip_filling (a1 a2 : List (String × String)) (cs1 cs2 : List Node)
    (options : Options) (hex : options.excludes_children = []) :
    _collect_headers (Soup.mk [Node.tag "h1" a1 cs1, Node.tag "h4" a2 cs2]) options 0 6 =
      .ok [HeaderTree.mk (some (0, Node.tag "h1" a1 cs1))
            [HeaderTree.mk none [HeaderTree.mk none
              [HeaderTree.mk (some (1, Node.tag "h4" a2 cs2)) []]]]] := by
  have hx := isExclude_empty options hex
  have hfa : find_all (Soup.mk [Node.tag "h1" a1 cs1, Node.tag "h4" a2 cs2]) 0 6 =
      [(0, Node.tag "h1" a1 cs1), (1, Node.tag "h4" a2 cs2)] := rfl
  simp only [_collect_headers, _MAX_HEADER_LEVEL]
  norm_num
  rw [show Int.toNat 6 = 6 from rfl, hfa]
  simp only [collectFold, List.foldl_cons, List.foldl_nil, step, lvl_h1, lvl_h4, hx]
  norm_num [closeTo, closeN, closeOne, extendTo, List.replicate,
    show List.range 3 = [0, 1, 2] from rfl]

theorem c2_skip_filling_witness :
    _collect_headers
        (Soup.mk [Node.tag "h1" [("id", "x")] [], Node.tag "h4" [("id", "y")] []])
        (Options.mk false 6 6 "T" []) 0 6 =
      .ok [HeaderTree.mk (some (0, Node.tag "h1" [("id", "x")] []))
            [HeaderTree.mk none [HeaderTree.mk none
              [HeaderTree.mk (some (1, Node.tag "h4" [("id", "y")] [])) []]]]] :=
  c2_skip_filling [("id", "x")] [("id", "y")] [] [] (Options.mk false 6 6 "T" []) rfl

/-- C5: `make_link` on a heading produces a list item holding a link whose
target is `#` followed by the heading's anchor id (empty when the heading has
no id) and whose content has one fragment per heading fragment: a clone for
ordinary fragments, and the inner link's first child for link fragments. -/
theorem c5_make_link_entry (nm : String) (a : List (String × String)) (cs : List Node)
    (hne : ∀ el ∈ cs, aEmptyFrag el = false) :
    make_link (Node.tag nm a cs) =
      .ok (Node.tag "li" []
             [Node.tag "a" [("href", "#" ++ ((Node.tag nm a cs).getAttr "id").getD "")]
               (cs.map contribFrag)],
           Node.tag nm a (cs.map residueFrag)) :=
  make_link_eq nm a cs hne

theorem c5_make_link_entry_witness :
    make_link (Node.tag "h2" [("id", "intro")] [Node.text "Intro"]) =
      .ok (Node.tag "li" [] [Node.tag "a" [("href", "#intro")] [Node.text "Intro"]],
           Node.tag "h2" [("id", "intro")] [Node.text "Intro"]) :=
  c5_make_link_entry "h2" [("id", "intro")] [Node.text "Intro"]
    (by intro el hel; simp only [List.mem_singleton] at hel; subst hel; rfl)

/-- C9: if a heading's content has, at position `j`, an `a` fragment with at
least one child, then `make_link` moves that fragment's first child into the
new TOC link (it appears at position `j` of the link content) and the heading
returned by `make_link` has lost it (its `a` fragment keeps only the tail),
so the heading is mutated; every non-link fragment is cloned and left in
place (`residueFrag` is the identity on them). -/
theorem c9_make_link_detaches (nm : String) (a aA : List (String × String)) (cs : List Node)
    (j : Nat) (c : Node) (arest : List Node)
    (hj : cs.get? j = some (Node.tag "a" aA (c :: arest)))
    (hne : ∀ el ∈ cs, aEmptyFrag el = false) :
    make_link (Node.tag nm a cs) =
      .ok (Node.tag "li" []
             [Node.tag "a" [("href", "#" ++ ((Node.tag nm a cs).getAttr "id").getD "")]
               (cs.map contribFrag)],
           Node.tag nm a (cs.map residueFrag)) ∧
    (cs.map contribFrag).get? j = some c ∧
    (cs.map residueFrag).get? j = some (Node.tag "a" aA arest) ∧
    cs.map residueFrag ≠ cs := by
  refine ⟨make_link_eq nm a cs hne, ?_, ?_, ?_⟩
  · rw [List.get?_map, hj]
    rfl
  · rw [List.get?_map, hj]
    rfl
  · intro heq
    have h2 : (cs.map residueFrag).get? j = cs.get? j := by rw [heq]
    simp only [List.get?_map, hj, Option.map_some', Option.some.injEq] at h2
    have h4 : arest = c :: arest := by simpa [residueFrag] using h2
    exact List.cons_ne_self c arest h4.symm

theorem c9_make_link_detaches_witness :
    make_link (Node.tag "h2" [("id", "z")] [Node.tag "a" [("href", "#w")] [Node.text "L"]]) =
      .ok (Node.tag "li" [] [Node.tag "a" [("href", "#z")] [Node.text "L"]],
           Node.tag "h2" [("id", "z")] [Node.tag "a" [("href", "#w")] []]) ∧
    [Node.tag "a" [("href", "#w")] []] ≠ [Node.tag "a" [("href", "#w")] [Node.text "L"]] := by
  have h := c9_make_link_detaches "h2" [("id", "z")] [("href", "#w")]
    [Node.tag "a" [("href", "#w")] [Node.text "L"]] 0 (Node.text "L") []
    (by rfl) (by intro el hel; simp only [List.mem_singleton] at hel; subst hel; rfl)
  refine ⟨h.1, ?_⟩
  intro heq
  have := h.2.2.2
  simp only [List.map_cons, List.map_nil] at this
  exact this (by simpa [residueFrag] using heq)

/-- C3: the order-injection pass labels the forest node at `path` with the
dot-joined 1-based sibling indices along `path` (depth-first pre-order with
siblings numbered from 1), and for every real node the insertion pass places
the label (span with the label text plus a trailing space) as the new first
inline fragment of the referenced heading element. -/
theorem c3_order_labels (F : List HeaderTree) (path : List Nat) (node : HeaderTree)
    (asg : List (Nat × String)) (ws : List String) (idx : Nat) (el : Node)
    (hat : nodeAt path F = some node)
    (hrun : inject_order F [] = .ok (asg, ws))
    (hel : node.element = some (idx, el)) :
    (idx, pathLabel path) ∈ asg ∧
    (∀ (body : List Node) (i : Nat) (p : String), (asg.map Prod.fst).Nodup → (i, p) ∈ asg →
      (applyAssignments body asg).get? i = (body.get? i).map (insertSpanAt0 p)) := by
  constructor
  · have hrun2 : injectOrderFrom F [] 1 = .ok (asg, ws) := by
      unfold inject_order at hrun
      simpa [_MAX_HEADER_LEVEL] using hrun
    have h := injectOrderFrom_mem path F [] 1 asg ws node hat hrun2 idx el hel
    unfold pathLabel
    rwa [List.nil_append, pathNums_one] at h
  · intro body i p hnd hmem
    exact applyAssignments_get asg body i p hmem hnd

theorem c3_order_labels_witness :
    ((2 : Nat), "1.2") ∈ [((0 : Nat), "1"), ((1 : Nat), "1.1"), ((2 : Nat), "1.2")] ∧
    (applyAssignments [Node.tag "h1" [] [], Node.tag "h2" [] [], Node.tag "h2" [] []]
        [((0 : Nat), "1"), ((1 : Nat), "1.1"), ((2 : Nat), "1.2")]).get? 2 =
      (([Node.tag "h1" [] [], Node.tag "h2" [] [], Node.tag "h2" [] []] : List Node).get? 2).map
        (insertSpanAt0 "1.2") := by
  have h := c3_order_labels
    [HeaderTree.mk (some (0, Node.tag "h1" [] []))
      [HeaderTree.mk (some (1, Node.tag "h2" [] [])) [],
       HeaderTree.mk (some (2, Node.tag "h2" [] [])) []]]
    [0, 1] (HeaderTree.mk (some (2, Node.tag "h2" [] [])) [])
    [((0 : Nat), "1"), ((1 : Nat), "1.1"), ((2 : Nat), "1.2")] []
    2 (Node.tag "h2" [] []) (by rfl)
    (by simp [inject_order, injectOrderFrom, _MAX_HEADER_LEVEL, dotJoin]
        exact ⟨rfl, rfl, rfl⟩)
    (by rfl)
  refine ⟨?_, h.2 _ 2 "1.2" (by simp) (by simp)⟩
  have h2 := h.1
  simpa [pathLabel, dotJoin] using h2

/-- C6: both public entry points guard their `_collect_headers` call so the
window invariant `0 ≤ start < stop ≤ 6` holds at entry: whenever the stage is
not disabled, the call with the clamped stop level succeeds (never hits the
two assertions at the top of `_collect_headers`). -/
theorem c6_window_invariant (soup : Soup) (options : Options) :
    (¬ options.toc_level ≤ effStart options →
      ∃ F, _collect_headers soup options (effStart options)
        (clampStop options.toc_level) = .ok F) ∧
    (¬ options.ordered_chapter_level ≤ effStart options →
      ∃ F, _collect_headers soup options (effStart options)
        (clampStop options.ordered_chapter_level) = .ok F) := by
  have key : ∀ v : Int, ¬ v ≤ effStart options →
      (0 ≤ effStart options ∧ effStart options < clampStop v ∧ 0 < clampStop v ∧
        clampStop v ≤ (_MAX_HEADER_LEVEL : Int)) := by
    intro v hv
    have h6 : ((_MAX_HEADER_LEVEL : Nat) : Int) = 6 := rfl
    have he : effStart options = 0 ∨ effStart options = 1 := by
      unfold effStart
      split
      · right; rfl
      · left; rfl
    unfold clampStop
    rw [h6]
    rcases he with h0 | h0 <;> rw [h0] at hv ⊢ <;> split <;> omega
  constructor
  · intro hgate
    unfold _collect_headers
    rw [if_pos (key options.toc_level hgate)]
    exact ⟨_, rfl⟩
  · intro hgate
    unfold _collect_headers
    rw [if_pos (key options.ordered_chapter_level hgate)]
    exact ⟨_, rfl⟩

theorem c6_window_invariant_witness :
    ∃ F, _collect_headers (Soup.mk [Node.tag "h1" [("id", "t")] []])
      (Options.mk false 9 4 "T" []) (effStart (Options.mk false 9 4 "T" []))
      (clampStop (Options.mk false 9 4 "T" []).toc_level) = .ok F :=
  (c6_window_invariant (Soup.mk [Node.tag "h1" [("id", "t")] []])
    (Options.mk false 9 4 "T" [])).1 (by decide)

/-- C8: header collection is deterministic and read-only: two calls with the
same inputs return the same forest, and every real node of the forest is a
reference into the unchanged document — its body index resolves to exactly
its node value, a window heading. -/
theorem c8_collect_pure (soup : Soup) (options : Options) (s e : Int) :
    _collect_headers soup options s e = _collect_headers soup options s e ∧
    (∀ F, _collect_headers soup options s e = .ok F →
      ∀ pr ∈ realsF F, soup.body.get? pr.1 = some pr.2 ∧
        isWindowHeading s.toNat e.toNat pr.2 = true) := by
  refine ⟨rfl, ?_⟩
  intro F hok pr hpr
  rw [collect_reals soup options s e F hok] at hpr
  unfold includedRefs at hpr
  rw [List.mem_map] at hpr
  obtain ⟨p, hp, hpr2⟩ := hpr
  have hplen : p < (find_all soup s.toNat e.toNat).length :=
    List.mem_range.mp (List.mem_filter.mp hp).1
  have hmem : (find_all soup s.toNat e.toNat).getD p dfltH ∈ find_all soup s.toNat e.toNat := by
    rw [List.getD_eq_getElem?_getD, List.getElem?_eq_getElem hplen]
    exact List.getElem_mem hplen
  subst hpr2
  rcases hfa : (find_all soup s.toNat e.toNat).getD p dfltH with ⟨i, x⟩
  rw [hfa] at hmem
  unfold find_all at hmem
  have hsplit := List.mem_filter.mp hmem
  refine ⟨?_, hsplit.2⟩
  have henum := hsplit.1
  rw [List.get?_eq_getElem?]
  exact List.mk_mem_enum_iff_getElem?.mp henum

theorem c8_collect_pure_witness :
    (Soup.mk [Node.tag "h1" [("id", "A")] []]).body.get? (0 : Nat) =
        some (Node.tag "h1" [("id", "A")] []) ∧
      isWindowHeading (0 : Int).toNat (6 : Int).toNat (Node.tag "h1" [("id", "A")] []) = true := by
  exact (c8_collect_pure (Soup.mk [Node.tag "h1" [("id", "A")] []])
    (Options.mk false 6 6 "T" []) 0 6).2
    [HeaderTree.mk (some (0, Node.tag "h1" [("id", "A")] [])) []] (by rfl)
    (0, Node.tag "h1" [("id", "A")] []) (by simp [realsF, optRef])

/-- C10: on a well-formed document holding a heading whose content contains
an empty `a` element inside the TOC window, `make_indexes` fails with the
`IndexError` of `el.contents[0]` — it is not total over the documents the
host abstraction can supply. -/
theorem c10_make_indexes_index_error :
    make_indexes (Soup.mk [Node.tag "h1" [("id", "x")] [Node.tag "a" [("href", "#y")] []]])
      (Options.mk false 6 0 "Contents" []) = .error .indexErr := by
  have hinj : _inject_heading_order
      (Soup.mk [Node.tag "h1" [("id", "x")] [Node.tag "a" [("href", "#y")] []]])
      (Options.mk false 6 0 "Contents" []) =
      .ok (Soup.mk [Node.tag "h1" [("id", "x")] [Node.tag "a" [("href", "#y")] []]], []) := rfl
  rw [make_indexes_run _ _ _ _ hinj]
  have hcoll : _collect_headers
      (Soup.mk [Node.tag "h1" [("id", "x")] [Node.tag "a" [("href", "#y")] []]])
      (Options.mk false 6 0 "Contents" [])
      (effStart (Options.mk false 6 0 "Contents" []))
      (clampStop (Options.mk false 6 0 "Contents" []).toc_level) =
      .ok [HeaderTree.mk
        (some (0, Node.tag "h1" [("id", "x")] [Node.tag "a" [("href", "#y")] []])) []] := rfl
  rw [tocStage_run _ _ _ (by decide) hcoll]
  have hcti : createTocItems
      [Node.tag "h1" [("id", "x")] [Node.tag "a" [("href", "#y")] []]]
      [HeaderTree.mk
        (some (0, Node.tag "h1" [("id", "x")] [Node.tag "a" [("href", "#y")] []])) []] =
      .error .indexErr := by
    simp [createTocItems, make_link, makeLinkFrags, Node.childrenOf]
  rw [hcti]

/-- C4: if the configured stop level is not above the effective start level,
the feature is a no-op — the TOC stage inserts nothing and returns the
document unchanged with no warning, and likewise for numbering; if the stop
level exceeds 6, the stage behaves exactly as with the value 6 and emits the
single clamp warning in front of the run's other warnings. -/
theorem c4_disable_and_clamp (soup : Soup) (options : Options) :
    (options.toc_level ≤ effStart options → tocStage soup options = .ok (soup, [])) ∧
    (options.ordered_chapter_level ≤ effStart options →
      _inject_heading_order soup options = .ok (soup, [])) ∧
    (options.toc_level > (_MAX_HEADER_LEVEL : Int) →
      tocStage soup options =
        (tocStage soup { options with toc_level := (_MAX_HEADER_LEVEL : Int) }).map
          (fun r => (r.1, tocClampMsg options.toc_level :: r.2))) ∧
    (options.ordered_chapter_level > (_MAX_HEADER_LEVEL : Int) →
      _inject_heading_order soup options =
        (_inject_heading_order soup
            { options with ordered_chapter_level := (_MAX_HEADER_LEVEL : Int) }).map
          (fun r => (r.1, ordClampMsg options.ordered_chapter_level :: r.2))) := by
  have he : effStart options = 0 ∨ effStart options = 1 := by
    unfold effStart
    split
    · right; rfl
    · left; rfl
  have h6 : ((_MAX_HEADER_LEVEL : Nat) : Int) = 6 := rfl
  refine ⟨?_, ?_, ?_, ?_⟩
  · intro hle
    unfold tocStage
    rw [if_pos hle]
  · intro hle
    unfold _inject_heading_order
    rw [if_pos hle]
  · intro hgt
    rw [h6] at hgt
    have hp1 : ({ options with toc_level := (_MAX_HEADER_LEVEL : Int) }).toc_level =
        ((_MAX_HEADER_LEVEL : Nat) : Int) := rfl
    have hp2 : effStart { options with toc_level := (_MAX_HEADER_LEVEL : Int) } =
        effStart options := rfl
    have hgate1 : ¬ options.toc_level ≤ effStart options := by rcases he with h0 | h0 <;> omega
    have hgate6 : ¬ ({ options with toc_level := (_MAX_HEADER_LEVEL : Int) }).toc_level ≤
        effStart { options with toc_level := (_MAX_HEADER_LEVEL : Int) } := by
      rw [hp1, hp2, h6]
      rcases he with h0 | h0 <;> omega
    obtain ⟨F, hcoll⟩ := collect_ok_clamped soup options options.toc_level hgate1
    have hcs : clampStop options.toc_level = (6 : Int) := by
      unfold clampStop
      rw [h6, if_pos (by omega)]
    have hcs6 : clampStop ({ options with toc_level := (_MAX_HEADER_LEVEL : Int) }).toc_level =
        (6 : Int) := by
      rw [hp1, h6]
      unfold clampStop
      rw [if_neg (by omega)]
    have hcoll6 : _collect_headers soup { options with toc_level := (_MAX_HEADER_LEVEL : Int) }
        (effStart { options with toc_level := (_MAX_HEADER_LEVEL : Int) })
        (clampStop ({ options with toc_level := (_MAX_HEADER_LEVEL : Int) }).toc_level) =
        .ok F := by
      rw [hp2, hcs6, collect_congr soup { options with toc_level := (_MAX_HEADER_LEVEL : Int) }
        options _ _ rfl, ← hcs]
      exact hcoll
    rw [tocStage_run soup options F hgate1 hcoll,
      tocStage_run soup { options with toc_level := (_MAX_HEADER_LEVEL : Int) } F hgate6 hcoll6]
    have hif1 : (if options.toc_level > (_MAX_HEADER_LEVEL : Int)
        then [tocClampMsg options.toc_level] else []) = [tocClampMsg options.toc_level] := by
      rw [if_pos (by rw [h6]; omega)]
    have hif2 : (if ({ options with toc_level := (_MAX_HEADER_LEVEL : Int) }).toc_level >
        (_MAX_HEADER_LEVEL : Int)
        then [tocClampMsg ({ options with toc_level := (_MAX_HEADER_LEVEL : Int) }).toc_level]
        else []) = [] := by
      rw [hp1, if_neg (by omega)]
    cases hcti : createTocItems soup.body F with
    | error er => simp [Except.map]
    | ok r =>
      obtain ⟨lis, b2, w⟩ := r
      simp [Except.map, hif1, hif2]
  · intro hgt
    rw [h6] at hgt
    have hp1 : ({ options with ordered_chapter_level :=
        (_MAX_HEADER_LEVEL : Int) }).ordered_chapter_level =
        ((_MAX_HEADER_LEVEL : Nat) : Int) := rfl
    have hp2 : effStart { options with ordered_chapter_level := (_MAX_HEADER_LEVEL : Int) } =
        effStart options := rfl
    have hgate1 : ¬ options.ordered_chapter_level ≤ effStart options := by
      rcases he with h0 | h0 <;> omega
    have hgate6 : ¬ ({ options with ordered_chapter_level :=
        (_MAX_HEADER_LEVEL : Int) }).ordered_chapter_level ≤
        effStart { options with ordered_chapter_level := (_MAX_HEADER_LEVEL : Int) } := by
      rw [hp1, hp2, h6]
      rcases he with h0 | h0 <;> omega
    obtain ⟨F, hcoll⟩ := collect_ok_clamped soup options options.ordered_chapter_level hgate1
    have hcs : clampStop options.ordered_chapter_level = (6 : Int) := by
      unfold clampStop
      rw [h6, if_pos (by omega)]
    have hcs6 : clampStop ({ options with ordered_chapter_level :=
        (_MAX_HEADER_LEVEL : Int) }).ordered_chapter_level = (6 : Int) := by
      rw [hp1, h6]
      unfold clampStop
      rw [if_neg (by omega)]
    have hcoll6 : _collect_headers soup
        { options with ordered_chapter_level := (_MAX_HEADER_LEVEL : Int) }
        (effStart { options with ordered_chapter_level := (_MAX_HEADER_LEVEL : Int) })
        (clampStop ({ options with ordered_chapter_level :=
          (_MAX_HEADER_LEVEL : Int) }).ordered_chapter_level) = .ok F := by
      rw [hp2, hcs6, collect_congr soup
        { options with ordered_chapter_level := (_MAX_HEADER_LEVEL : Int) } options _ _ rfl,
        ← hcs]
      exact hcoll
    rw [injectStage_run soup options F hgate1 hcoll,
      injectStage_run soup { options with ordered_chapter_level := (_MAX_HEADER_LEVEL : Int) }
        F hgate6 hcoll6]
    have hif1 : (if options.ordered_chapter_level > (_MAX_HEADER_LEVEL : Int)
        then [ordClampMsg options.ordered_chapter_level] else []) =
        [ordClampMsg options.ordered_chapter_level] := by
      rw [if_pos (by rw [h6]; omega)]
    have hif2 : (if ({ options with ordered_chapter_level :=
        (_MAX_HEADER_LEVEL : Int) }).ordered_chapter_level > (_MAX_HEADER_LEVEL : Int)
        then [ordClampMsg ({ options with ordered_chapter_level :=
          (_MAX_HEADER_LEVEL : Int) }).ordered_chapter_level]
        else []) = [] := by
      rw [hp1, if_neg (by omega)]
    cases hio : inject_order F [] with
    | error er => simp [Except.map]
    | ok r =>
      obtain ⟨asg, ws⟩ := r
      simp [Except.map, hif1, hif2]

theorem c4_disable_and_clamp_witness :
    tocStage (Soup.mk [Node.tag "h1" [("id", "t")] []]) (Options.mk false 0 0 "T" []) =
      .ok (Soup.mk [Node.tag "h1" [("id", "t")] []], []) ∧
    _inject_heading_order (Soup.mk [Node.tag "h1" [("id", "t")] []])
      (Options.mk false 0 0 "T" []) = .ok (Soup.mk [Node.tag "h1" [("id", "t")] []], []) ∧
    tocStage (Soup.mk [Node.tag "h1" [("id", "t")] []]) (Options.mk false 9 9 "T" []) =
      (tocStage (Soup.mk [Node.tag "h1" [("id", "t")] []])
          { Options.mk false 9 9 "T" [] with toc_level := (_MAX_HEADER_LEVEL : Int) }).map
        (fun r => (r.1, tocClampMsg 9 :: r.2)) ∧
    _inject_heading_order (Soup.mk [Node.tag "h1" [("id", "t")] []])
        (Options.mk false 9 9 "T" []) =
      (_inject_heading_order (Soup.mk [Node.tag "h1" [("id", "t")] []])
          { Options.mk false 9 9 "T" [] with
            ordered_chapter_level := (_MAX_HEADER_LEVEL : Int) }).map
        (fun r => (r.1, ordClampMsg 9 :: r.2)) := by
  refine ⟨(c4_disable_and_clamp (Soup.mk [Node.tag "h1" [("id", "t")] []])
      (Options.mk false 0 0 "T" [])).1 (by decide),
    (c4_disable_and_clamp (Soup.mk [Node.tag "h1" [("id", "t")] []])
      (Options.mk false 0 0 "T" [])).2.1 (by decide),
    (c4_disable_and_clamp (Soup.mk [Node.tag "h1" [("id", "t")] []])
      (Options.mk false 9 9 "T" [])).2.2.1 (by decide),
    (c4_disable_and_clamp (Soup.mk [Node.tag "h1" [("id", "t")] []])
      (Options.mk false 9 9 "T" [])).2.2.2 (by decide)⟩

/-- C7: in `make_indexes`, the order-injection pass completes first and the
TOC is produced from its output document: when the TOC is enabled and the run
succeeds, the TOC forest is collected from the injected document, the links
are built from that same document, and the resulting container — the
`article` holding the title heading before the nested list (`tocArticle`) —
is the first element of the final body. -/
theorem c7_inject_before_toc (soup : Soup) (options : Options) (soup2 : Soup) (w : List String)
    (hok : make_indexes soup options = .ok (soup2, w))
    (hgate : ¬ options.toc_level ≤ effStart options) :
    ∃ soup1 w1 F ul body2 ws,
      _inject_heading_order soup options = .ok (soup1, w1) ∧
      _collect_headers soup1 options (effStart options) (clampStop options.toc_level) = .ok F ∧
      create_toc soup1.body F = .ok (ul, body2, ws) ∧
      soup2.body = tocArticle options.toc_title ul :: body2 := by
  unfold make_indexes at hok
  cases hinj : _inject_heading_order soup options with
  | error er => rw [hinj] at hok; simp at hok
  | ok r1 =>
    obtain ⟨s1, w1⟩ := r1
    rw [hinj] at hok
    dsimp only at hok
    cases htoc : tocStage s1 options with
    | error er => rw [htoc] at hok; simp at hok
    | ok r2 =>
      obtain ⟨s2, w2⟩ := r2
      rw [htoc] at hok
      simp only [Except.ok.injEq, Prod.mk.injEq] at hok
      obtain ⟨hs2, hw⟩ := hok
      unfold tocStage at htoc
      rw [if_neg hgate] at htoc
      cases hcoll : _collect_headers s1 options (effStart options)
          (clampStop options.toc_level) with
      | error er => rw [hcoll] at htoc; simp at htoc
      | ok F =>
        rw [hcoll] at htoc
        dsimp only at htoc
        cases hct : create_toc s1.body F with
        | error er => rw [hct] at htoc; simp at htoc
        | ok r3 =>
          obtain ⟨ul, body2, ws⟩ := r3
          rw [hct] at htoc
          simp only [Except.ok.injEq, Prod.mk.injEq] at htoc
          refine ⟨s1, w1, F, ul, body2, ws, rfl, hcoll, hct, ?_⟩
          rw [← hs2, ← htoc.1]

theorem c7_inject_before_toc_witness :
    ∃ soup1 w1 F ul body2 ws,
      _inject_heading_order (Soup.mk [Node.tag "h1" [("id", "t")] [Node.text "T"]])
          (Options.mk false 6 0 "Contents" []) = .ok (soup1, w1) ∧
      _collect_headers soup1 (Options.mk false 6 0 "Contents" [])
          (effStart (Options.mk false 6 0 "Contents" []))
          (clampStop (Options.mk false 6 0 "Contents" []).toc_level) = .ok F ∧
      create_toc soup1.body F = .ok (ul, body2, ws) ∧
      (Soup.mk [tocArticle "Contents"
          (Node.tag "ul" [] [Node.tag "li" [] [Node.tag "a" [("href", "#t")] [Node.text "T"]]]),
        Node.tag "h1" [("id", "t")] [Node.text "T"]]).body =
        tocArticle (Options.mk false 6 0 "Contents" []).toc_title ul :: body2 := by
  have hinj : _inject_heading_order (Soup.mk [Node.tag "h1" [("id", "t")] [Node.text "T"]])
      (Options.mk false 6 0 "Contents" []) =
      .ok (Soup.mk [Node.tag "h1" [("id", "t")] [Node.text "T"]], []) := rfl
  have hcoll : _collect_headers (Soup.mk [Node.tag "h1" [("id", "t")] [Node.text "T"]])
      (Options.mk false 6 0 "Contents" [])
      (effStart (Options.mk false 6 0 "Contents" []))
      (clampStop (Options.mk false 6 0 "Contents" []).toc_level) =
      .ok [HeaderTree.mk (some (0, Node.tag "h1" [("id", "t")] [Node.text "T"])) []] := rfl
  have hcti : createTocItems [Node.tag "h1" [("id", "t")] [Node.text "T"]]
      [HeaderTree.mk (some (0, Node.tag "h1" [("id", "t")] [Node.text "T"])) []] =
      .ok ([Node.tag "li" [] [Node.tag "a" [("href", "#t")] [Node.text "T"]]],
        [Node.tag "h1" [("id", "t")] [Node.text "T"]], []) := by
    simp [createTocItems, make_link, makeLinkFrags, Node.childrenOf, Node.getAttr,
      clone_element, Node.withChildren]
  have hok : make_indexes (Soup.mk [Node.tag "h1" [("id", "t")] [Node.text "T"]])
      (Options.mk false 6 0 "Contents" []) =
      .ok (Soup.mk [tocArticle "Contents"
          (Node.tag "ul" [] [Node.tag "li" [] [Node.tag "a" [("href", "#t")] [Node.text "T"]]]),
        Node.tag "h1" [("id", "t")] [Node.text "T"]], []) := by
    rw [make_indexes_run _ _ _ _ hinj, tocStage_run _ _ _ (by decide) hcoll]
    rw [hcti]
    rfl
  exact c7_inject_before_toc _ _ _ _ hok (by decide)

end MkdocsToc
